import Mathlib

/-!
# Verification of the sqliteexporter trace pipeline

Shallow embedding of the two-stage pipeline of `wperron/sqliteexporter`:

* `internal/transform/span.go` — the batch normalizer `Spans`, turning a flat
  list of SDK read-only spans into a `ptrace.Traces` hierarchy
  (resource → scope → span), deduplicating resources and scopes by 64-bit
  FNV-1a fingerprints;
* `config.go` — the relational persister `ConsumeTraces`, flattening a
  `ptrace.Traces` batch into rows of the `spans`, `events` and `links` tables
  inside one transaction, with `pcommonMapAsJSON` attribute serialization and
  `unixMicro` timestamp conversion.

Machine integers are modelled as `Nat`/`Int` with explicit `% 2 ^ 64` where the
Go code relies on `uint64` wrap-around (the FNV-1a hash).  Byte strings (trace
and span ids) are modelled as `List Nat`.  Go panics and Go `error` returns are
modelled with `Except String`.

Floating-point attribute values (`attribute.FLOAT64`, `attribute.FLOAT64SLICE`
and the `pcommon` double type) are outside the embedding; all other attribute
value types handled by `transformAttributes` are covered.
-/

set_option autoImplicit false

namespace SqliteExporter

/-! ## `pcommon` values and maps

`pcommon.Value` as this program constructs it: scalars (string, int64, bool)
and one-level homogeneous slices of scalars, mirroring what
`transformAttributes` can produce (`PutStr`/`PutInt`/`PutBool` and
`PutEmptySlice` filled with scalar elements).  `pcommon.Map` preserves
insertion order and keeps keys unique (`Put*` overwrites an existing key in
place, otherwise appends). -/

inductive PScalar where
  | str (s : String)
  | int (i : Int)
  | bool (b : Bool)
  deriving Repr, DecidableEq, Inhabited

inductive PVal where
  | scalar (v : PScalar)
  | slice (xs : List PScalar)
  deriving Repr, DecidableEq, Inhabited

/-- `pcommon.Map`: an insertion-ordered association list with unique keys. -/
abbrev PMap := List (String × PVal)

/-- The upsert performed by `pcommon.Map.PutStr` / `PutInt` / `PutBool` /
`PutEmptySlice`: overwrite the value of an existing key in place, otherwise
append the new entry. -/
def pmapPut (m : PMap) (k : String) (v : PVal) : PMap :=
  if m.any (fun kv => kv.1 == k) then
    m.map (fun kv => if kv.1 == k then (k, v) else kv)
  else
    m ++ [(k, v)]

/-! ## OTel SDK attribute values (`go.opentelemetry.io/otel/attribute`)

The `attribute.KeyValue` universe consumed by `transformAttributes`.  The
`other` constructor stands for any value type the `switch` in
`transformAttributes` has no case for (such types are silently dropped). -/

inductive AttrVal where
  | bool (b : Bool)
  | int (i : Int)
  | str (s : String)
  | boolSlice (xs : List Bool)
  | intSlice (xs : List Int)
  | strSlice (xs : List String)
  | other
  deriving Repr, DecidableEq, Inhabited

abbrev AttrList := List (String × AttrVal)

/-- `transformAttributes` (span.go): dispatch on the declared value type;
scalars map one-to-one, each slice type is rebuilt as a slice of same-typed
scalar entries under the single key, and value types without a `switch` case
are silently dropped.  `PutEmptySlice` followed by element-wise `Append` is
the same map entry as putting the finished slice. -/
def transformAttributes (kvs : AttrList) : PMap :=
  kvs.foldl
    (fun acc kv =>
      match kv.2 with
      | .bool b => pmapPut acc kv.1 (.scalar (.bool b))
      | .int i => pmapPut acc kv.1 (.scalar (.int i))
      | .str s => pmapPut acc kv.1 (.scalar (.str s))
      | .boolSlice xs => pmapPut acc kv.1 (.slice (xs.map PScalar.bool))
      | .intSlice xs => pmapPut acc kv.1 (.slice (xs.map PScalar.int))
      | .strSlice xs => pmapPut acc kv.1 (.slice (xs.map PScalar.str))
      | .other => acc)
    []

/-! ## FNV-1a 64-bit hashing (`hash/fnv`) -/

def fnvOffsetBasis : Nat := 14695981039346656037

def fnvPrime : Nat := 1099511628211

/-- One step of 64-bit FNV-1a: xor in the byte, multiply by the prime,
wrapping at `2 ^ 64` as the Go `uint64` arithmetic does. -/
def fnvStep (h : Nat) (b : Nat) : Nat :=
  ((h ^^^ b) * fnvPrime) % 2 ^ 64

/-- 64-bit FNV-1a over a byte sequence (`fnv.New64a` + `Write` + `Sum64`). -/
def fnv64a (bs : List Nat) : Nat :=
  bs.foldl fnvStep fnvOffsetBasis

/-- UTF-8 encoding of one code point. -/
def utf8Bytes (c : Char) : List Nat :=
  let n := c.toNat
  if n < 0x80 then [n]
  else if n < 0x800 then
    [0xC0 ||| (n >>> 6), 0x80 ||| (n &&& 0x3F)]
  else if n < 0x10000 then
    [0xE0 ||| (n >>> 12), 0x80 ||| ((n >>> 6) &&& 0x3F), 0x80 ||| (n &&& 0x3F)]
  else
    [0xF0 ||| (n >>> 18), 0x80 ||| ((n >>> 12) &&& 0x3F),
     0x80 ||| ((n >>> 6) &&& 0x3F), 0x80 ||| (n &&& 0x3F)]

/-- UTF-8 bytes of a string, as `[]byte(s)` produces them in Go. -/
def strBytes (s : String) : List Nat :=
  s.data.flatMap utf8Bytes

/-! ## Resource and scope identity (span.go `hashResource`, `hashScope`) -/

/-- The attribute set of an SDK `resource.Resource`.  The SDK keeps the list
in its canonical order (sorted by key, unique keys); the embedding takes the
list as given. -/
structure RawResource where
  attrs : AttrList
  deriving Repr, DecidableEq, Inhabited

/-- An SDK `instrumentation.Scope`. -/
structure RawScope where
  name : String
  version : String
  schemaURL : String
  deriving Repr, DecidableEq, Inhabited

/-- Modelled from the spec: the canonical (sorted, delimiter-safe) encoding of
a resource attribute set used by `res.Encoded(attribute.DefaultEncoder())` in
`hashResource`.  The library source is not part of this repository; per its
interface, keys and string values have the delimiter characters `=`, `,` and
the escape character itself escaped with a backslash. -/
def escapeEnc (s : String) : String :=
  s.data.foldl
    (fun acc c =>
      if c = '=' ∨ c = ',' ∨ c = '\\' then (acc.push '\\').push c else acc.push c)
    ""

/-- Modelled from the spec: the text emitted for one attribute value by the
default encoder (`attribute.Value.Emit`, with string values escaped).
Non-string scalars print as Go renders them; slices print in Go`s
`fmt.Sprint` bracketed space-separated form; value types outside the encoder
print as the fixed text "unknown". -/
def emitEnc : AttrVal → String
  | .bool b => if b then "true" else "false"
  | .int i => toString i
  | .str s => escapeEnc s
  | .boolSlice xs =>
      "[" ++ String.intercalate " " (xs.map fun b => if b then "true" else "false") ++ "]"
  | .intSlice xs => "[" ++ String.intercalate " " (xs.map toString) ++ "]"
  | .strSlice xs => "[" ++ String.intercalate " " xs ++ "]"
  | .other => "unknown"

/-- Modelled from the spec: whole-resource canonical encoding, `key=value`
pairs joined with `,` in the resource's canonical attribute order. -/
def encodeResource (attrs : AttrList) : String :=
  String.intercalate "," (attrs.map fun kv => escapeEnc kv.1 ++ "=" ++ emitEnc kv.2)

/-- `hashResource` (span.go): 64-bit FNV-1a of the canonically encoded
resource attribute set. -/
def hashResource (res : RawResource) : Nat :=
  fnv64a (strBytes (encodeResource res.attrs))

/-- `hashScope` (span.go): 64-bit FNV-1a accumulated over the raw bytes of
the scope name, schema URL and version, in that order. -/
def hashScope (s : RawScope) : Nat :=
  fnv64a (strBytes s.name ++ strBytes s.schemaURL ++ strBytes s.version)

/-! ## SDK read-only spans (the normalizer's input) -/

structure RawEvent where
  timeNano : Nat
  name : String
  attributes : AttrList
  droppedAttributeCount : Nat
  deriving Repr, DecidableEq, Inhabited

structure RawLink where
  traceId : List Nat
  spanId : List Nat
  traceState : String
  attributes : AttrList
  droppedAttributeCount : Nat
  deriving Repr, DecidableEq, Inhabited

/-- An `sdktrace.ReadOnlySpan`, restricted to the fields the pipeline reads.
`kind` is the numeric `trace.SpanKind` value; `statusCode` is the numeric
`codes.Code` value (a Go `uint32`, so any natural number can arrive here).
Timestamps are nanoseconds since epoch (`pcommon.Timestamp` resolution). -/
structure RawSpan where
  name : String
  traceId : List Nat
  spanId : List Nat
  parentSpanId : List Nat
  traceState : String
  kind : Nat
  startNano : Nat
  endNano : Nat
  statusCode : Nat
  statusDescription : String
  droppedAttributes : Nat
  droppedEvents : Nat
  droppedLinks : Nat
  attributes : AttrList
  events : List RawEvent
  links : List RawLink
  resource : RawResource
  scope : RawScope
  deriving Repr, DecidableEq, Inhabited

/-! ## Normalized batch (`ptrace.Traces`) -/

/-- `ptrace.StatusCode` (OTLP enum: unset = 0, ok = 1, error = 2). -/
inductive PStatusCode where
  | unset
  | ok
  | error
  deriving Repr, DecidableEq, Inhabited

/-- The integer enum value of a `ptrace.StatusCode` as OTLP defines it. -/
def statusCodeInt : PStatusCode → Nat
  | .unset => 0
  | .ok => 1
  | .error => 2

structure PEvent where
  timestampNano : Nat
  name : String
  attributes : PMap
  droppedAttributesCount : Nat
  deriving Repr, DecidableEq, Inhabited

structure PLink where
  traceId : List Nat
  spanId : List Nat
  traceState : String
  attributes : PMap
  droppedAttributesCount : Nat
  deriving Repr, DecidableEq, Inhabited

structure PSpan where
  traceId : List Nat
  spanId : List Nat
  parentSpanId : List Nat
  traceState : String
  name : String
  kind : Nat
  startNano : Nat
  endNano : Nat
  statusCode : PStatusCode
  statusMessage : String
  droppedAttributesCount : Nat
  droppedEventsCount : Nat
  droppedLinksCount : Nat
  attributes : PMap
  events : List PEvent
  links : List PLink
  deriving Repr, DecidableEq, Inhabited

structure PResource where
  attributes : PMap
  droppedAttributesCount : Nat
  deriving Repr, DecidableEq, Inhabited

structure PScope where
  name : String
  version : String
  attributes : PMap
  deriving Repr, DecidableEq, Inhabited

structure PScopeSpans where
  scope : PScope
  spans : List PSpan
  deriving Repr, DecidableEq, Inhabited

structure PResourceSpans where
  resource : PResource
  scopeSpans : List PScopeSpans
  deriving Repr, DecidableEq, Inhabited

/-! ## The normalizer (`Spans`, span.go) -/

/-- The status-code switch in `Spans`: `codes.Unset` (0) maps to the OTLP
unset code, `codes.Ok` (2) to ok, `codes.Error` (1) to error, and any other
`codes.Code` value hits `panic("unreachable")`, modelled as `Except.error`. -/
def mapStatus (c : Nat) : Except String PStatusCode :=
  if c = 0 then .ok .unset
  else if c = 2 then .ok .ok
  else if c = 1 then .ok .error
  else .error "unreachable"

/-- The status codes on which the `Spans` status switch does not panic. -/
def ValidStatus (c : Nat) : Prop :=
  c = 0 ∨ c = 1 ∨ c = 2

instance (c : Nat) : Decidable (ValidStatus c) := by
  unfold ValidStatus; infer_instance

/-- Total version of the status switch, agreeing with `mapStatus` on the
non-panicking inputs. -/
def convStatus (c : Nat) : PStatusCode :=
  if c = 0 then .unset else if c = 2 then .ok else .error

def toPEvent (e : RawEvent) : PEvent :=
  ⟨e.timeNano, e.name, transformAttributes e.attributes, e.droppedAttributeCount⟩

def toPLink (l : RawLink) : PLink :=
  ⟨l.traceId, l.spanId, l.traceState, transformAttributes l.attributes,
   l.droppedAttributeCount⟩

/-- The span node `Spans` fills under the resolved scope: identifiers, trace
state, name, kind (numeric cast `ptrace.SpanKind(s.SpanKind())`), timestamps,
the mapped status code and message, the three dropped counters, transformed
attributes, and events and links in arrival order. -/
def toPSpan (s : RawSpan) (code : PStatusCode) : PSpan :=
  ⟨s.traceId, s.spanId, s.parentSpanId, s.traceState, s.name, s.kind,
   s.startNano, s.endNano, code, s.statusDescription, s.droppedAttributes,
   s.droppedEvents, s.droppedLinks, transformAttributes s.attributes,
   s.events.map toPEvent, s.links.map toPLink⟩

/-- Normalizer loop state: the output tree built so far plus the two
fingerprint lookup tables.  `resMap` maps a resource fingerprint to the index
of its `PResourceSpans` node in `traces`; `scopeMap` maps a scope fingerprint
to the `(resource index, scope index)` of its `PScopeSpans` node.  Both maps
live for the whole call, mirroring the two Go maps declared before the span
loop. -/
structure NState where
  traces : List PResourceSpans
  resMap : List (Nat × Nat)
  scopeMap : List (Nat × Nat × Nat)
  deriving Repr, DecidableEq, Inhabited

def lookupIdx (m : List (Nat × Nat)) (k : Nat) : Option Nat :=
  (m.find? (fun e => e.1 == k)).map (·.2)

def lookupLoc (m : List (Nat × Nat × Nat)) (k : Nat) : Option (Nat × Nat) :=
  (m.find? (fun e => e.1 == k)).map (·.2)

/-- Update the element at an index, leaving the list unchanged when the index
is out of range.  Models mutation through a `ptrace` node reference. -/
def modifyAt {α : Type} (l : List α) (i : Nat) (f : α → α) : List α :=
  match l, i with
  | [], _ => []
  | x :: xs, 0 => f x :: xs
  | x :: xs, n + 1 => x :: modifyAt xs n f

/-- `rss.AppendEmpty()` for resources: a fresh zero-valued node. -/
def emptyResourceSpans : PResourceSpans := ⟨⟨[], 0⟩, []⟩

/-- `rs.ScopeSpans().AppendEmpty()`: a fresh zero-valued scope node.  `Spans`
never sets the scope name, version or attributes (see the TODO in config.go),
so they stay zero-valued. -/
def emptyScopeSpans : PScopeSpans := ⟨⟨"", "", []⟩, []⟩

/-- One iteration of the span loop in `Spans`, after the status switch has
produced `code`: resolve or create the resource node, overwrite its dropped
counter with 0 and its attributes with the transformed resource attributes,
resolve or create the scope node (through the call-wide `scopeMap`), and
append the filled span under the resolved scope node. -/
def processSpanOk (st : NState) (s : RawSpan) (code : PStatusCode) : NState :=
  let hres := hashResource s.resource
  let step1 :=
    match lookupIdx st.resMap hres with
    | some i => (st.traces, st.resMap, i)
    | none =>
        (st.traces ++ [emptyResourceSpans], st.resMap ++ [(hres, st.traces.length)],
         st.traces.length)
  let ridx := step1.2.2
  let traces1 := modifyAt step1.1 ridx
    (fun rs => { rs with resource := ⟨transformAttributes s.resource.attrs, 0⟩ })
  let hsc := hashScope s.scope
  let step2 :=
    match lookupLoc st.scopeMap hsc with
    | some loc => (traces1, st.scopeMap, loc)
    | none =>
        let si := (traces1.getD ridx emptyResourceSpans).scopeSpans.length
        (modifyAt traces1 ridx
           (fun rs => { rs with scopeSpans := rs.scopeSpans ++ [emptyScopeSpans] }),
         st.scopeMap ++ [(hsc, ridx, si)], (ridx, si))
  let loc := step2.2.2
  let traces3 := modifyAt step2.1 loc.1
    (fun rs =>
      { rs with
        scopeSpans := modifyAt rs.scopeSpans loc.2
          (fun ss => { ss with spans := ss.spans ++ [toPSpan s code] }) })
  ⟨traces3, step1.2.1, step2.2.1⟩

/-- One iteration of the span loop, including the status switch (whose panic
aborts the whole call). -/
def processSpan (st : NState) (s : RawSpan) : Except String NState :=
  match mapStatus s.statusCode with
  | .error e => .error e
  | .ok code => .ok (processSpanOk st s code)

/-- `Spans` (span.go): fold the span loop over the input, starting from the
empty `ptrace.NewTraces()` tree and empty lookup tables. -/
def Spans (sdl : List RawSpan) : Except String (List PResourceSpans) :=
  (sdl.foldlM processSpan ⟨[], [], []⟩).map NState.traces

/-! ## Attribute serialization (`pcommonMapAsJSON`, config.go)

`pcommonMapAsJSON` is `json.Marshal(m.AsRaw())`.  `pcommon.Map.AsRaw` builds a
Go `map[string]any` (last write wins on a repeated key), and `encoding/json`
renders a Go map with its keys sorted byte-lexicographically, escaping `"`,
`\`, control characters and (HTML escaping, on by default) `<`, `>`, `&`. -/

def hexDigit (n : Nat) : Char :=
  if n < 10 then Char.ofNat (48 + n) else Char.ofNat (87 + n)

/-- `encoding/json` escaping of one character inside a string literal. -/
def jsonEscapeChar (c : Char) : String :=
  if c = '"' then "\\\""
  else if c = '\\' then "\\\\"
  else if c = '\n' then "\\n"
  else if c = '\r' then "\\r"
  else if c = '\t' then "\\t"
  else if c.toNat < 32 then
    "\\u00" ++ String.mk [hexDigit (c.toNat / 16), hexDigit (c.toNat % 16)]
  else if c = '<' then "\\u003c"
  else if c = '>' then "\\u003e"
  else if c = '&' then "\\u0026"
  else if c.toNat = 0x2028 then "\\u2028"
  else if c.toNat = 0x2029 then "\\u2029"
  else String.singleton c

/-- A JSON string literal for `s`. -/
def jsonQuote (s : String) : String :=
  "\"" ++ String.join (s.data.map jsonEscapeChar) ++ "\""

def jsonScalar : PScalar → String
  | .str s => jsonQuote s
  | .int i => toString i
  | .bool b => if b then "true" else "false"

def jsonVal : PVal → String
  | .scalar v => jsonScalar v
  | .slice xs => "[" ++ String.intercalate "," (xs.map jsonScalar) ++ "]"

/-- Keep the last value written for each key, preserving first-occurrence
positions collapsed to a single entry — the effect of `AsRaw` ranging over the
map into a Go `map[string]any`.  On the unique-keyed maps `pcommon.Map`
maintains this is the identity. -/
def dedupKeepLast (m : PMap) : PMap :=
  m.foldl (fun acc kv => pmapPut acc kv.1 kv.2) []

/-- Lexicographic strict order on byte sequences. -/
def bytesLt : List Nat → List Nat → Bool
  | [], [] => false
  | [], _ :: _ => true
  | _ :: _, [] => false
  | a :: as, b :: bs => if a < b then true else if b < a then false else bytesLt as bs

/-- Go string comparison: byte-wise lexicographic order on the UTF-8
bytes. -/
def strLt (a b : String) : Bool :=
  bytesLt (strBytes a) (strBytes b)

/-- Insert an entry into a key-sorted list, keeping it sorted. -/
def insertSorted (kv : String × PVal) : PMap → PMap
  | [] => [kv]
  | x :: xs => if strLt kv.1 x.1 then kv :: x :: xs else x :: insertSorted kv xs

/-- Sort entries by key, byte-lexicographically — the order `encoding/json`
uses for Go map keys. -/
def sortByKey (m : PMap) : PMap :=
  m.foldr insertSorted []

/-- `pcommonMapAsJSON` (config.go): `json.Marshal(m.AsRaw())`.  An empty map
renders as the two-character object literal; keys come out in sorted order,
not insertion order. -/
def pcommonMapAsJSON (m : PMap) : String :=
  "\x7b"
    ++ String.intercalate ","
        ((sortByKey (dedupKeepLast m)).map fun kv => jsonQuote kv.1 ++ ":" ++ jsonVal kv.2)
    ++ "\x7d"

/-! ## Timestamp conversion (config.go) -/

/-- `unixMicro` (config.go): `t.UnixNano() / 1000`.  On the non-negative
`pcommon.Timestamp` domain Go's truncating `int64` division is `Nat`
division. -/
def unixMicro (nanos : Nat) : Nat :=
  nanos / 1000

/-- `span.EndTimestamp().AsTime().Sub(span.StartTimestamp().AsTime())`
followed by `Duration.Microseconds()`: the signed nanosecond difference
divided by 1000, truncated toward zero as Go division is. -/
def durationMicroseconds (startNano endNano : Nat) : Int :=
  if startNano ≤ endNano then ((endNano - startNano) / 1000 : Nat)
  else -(((startNano - endNano) / 1000 : Nat) : Int)

/-! ## Row construction (`ConsumeTraces`, config.go) -/

/-- `ptrace.SpanKind.String()` from the collector pdata dependency (external
to this repository; values per its source at the pinned collector version):
the capitalized kind name, empty for out-of-range values. -/
def kindString (k : Nat) : String :=
  if k = 0 then "Unspecified"
  else if k = 1 then "Internal"
  else if k = 2 then "Server"
  else if k = 3 then "Client"
  else if k = 4 then "Producer"
  else if k = 5 then "Consumer"
  else ""

/-- `pcommon.Value.Str()`: the string value, or the empty string when the
value is not a string. -/
def valueStr : PVal → String
  | .scalar (.str s) => s
  | _ => ""

/-- The `service.name` scan in `ConsumeTraces`: range over the resource
attributes in order, stop at the first `service.name` key, take its string
value, and fall back to "unknown" when the key is absent, its value empty, or
of the wrong type. -/
def resolveServiceName (m : PMap) : String :=
  match m.find? (fun kv => kv.1 == "service.name") with
  | some kv => if valueStr kv.2 = "" then "unknown" else valueStr kv.2
  | none => "unknown"

/-- One row of the `spans` table, fields in the column order of
`insertSpanQ`. -/
structure SpanRow where
  spanId : List Nat
  traceId : List Nat
  parentSpanId : Option (List Nat)
  tracestate : String
  serviceName : String
  duration : Int
  name : String
  kind : String
  startTime : Nat
  endTime : Nat
  statusCode : Nat
  statusDescription : String
  attributes : String
  droppedAttributesCount : Nat
  droppedEventsCount : Nat
  droppedLinksCount : Nat
  resourceAttributes : String
  resourceDroppedAttributesCount : Nat
  instrumentationLibraryName : String
  instrumentationLibraryVersion : String
  instrumentationLibraryAttributes : String
  deriving Repr, DecidableEq, Inhabited

/-- One row of the `events` table (column order of `insertEventQ`). -/
structure EventRow where
  spanId : List Nat
  timestamp : Nat
  name : String
  attributes : String
  droppedAttributesCount : Nat
  deriving Repr, DecidableEq, Inhabited

/-- One row of the `links` table (column order of `insertLinkQ`). -/
structure LinkRow where
  parentSpanId : List Nat
  spanId : List Nat
  traceId : List Nat
  tracestate : String
  attributes : String
  droppedAttributesCount : Nat
  deriving Repr, DecidableEq, Inhabited

/-- The argument list of the span `ExecContext` call: ids as raw byte
strings, the parent span id replaced by SQL NULL when
`span.ParentSpanID().IsEmpty()` (all-zero), the resolved service name, the
truncated duration and timestamps, the numeric status code, the kind name
text, the serialized attribute maps and the dropped counters. -/
def spanRowOf (svc rattrs : String) (resourceDropped : Nat) (scope : PScope)
    (sattrs : String) (sp : PSpan) : SpanRow :=
  { spanId := sp.spanId
    traceId := sp.traceId
    parentSpanId :=
      if sp.parentSpanId = List.replicate 8 0 then none else some sp.parentSpanId
    tracestate := sp.traceState
    serviceName := svc
    duration := durationMicroseconds sp.startNano sp.endNano
    name := sp.name
    kind := kindString sp.kind
    startTime := unixMicro sp.startNano
    endTime := unixMicro sp.endNano
    statusCode := statusCodeInt sp.statusCode
    statusDescription := sp.statusMessage
    attributes := pcommonMapAsJSON sp.attributes
    droppedAttributesCount := sp.droppedAttributesCount
    droppedEventsCount := sp.droppedEventsCount
    droppedLinksCount := sp.droppedLinksCount
    resourceAttributes := rattrs
    resourceDroppedAttributesCount := resourceDropped
    instrumentationLibraryName := scope.name
    instrumentationLibraryVersion := scope.version
    instrumentationLibraryAttributes := sattrs }

def eventRowOf (spanId : List Nat) (ev : PEvent) : EventRow :=
  ⟨spanId, unixMicro ev.timestampNano, ev.name, pcommonMapAsJSON ev.attributes,
   ev.droppedAttributesCount⟩

def linkRowOf (spanId : List Nat) (l : PLink) : LinkRow :=
  ⟨spanId, l.spanId, l.traceId, l.traceState, pcommonMapAsJSON l.attributes,
   l.droppedAttributesCount⟩

/-! ## The persister (`ConsumeTraces`, config.go)

Each row insert is a `PrepareContext` followed by an `ExecContext`; either can
fail with a store error.  Failures are injected by an oracle indexed by the
ordinal of the insert attempt within the call.  The decisive control-flow
fact, taken verbatim from the source, is the `defer tx.Commit()` placed right
after `BeginTx`: the transaction is committed when the function returns on
*every* path, including every error return, and no rollback call exists.  The
stray `e.db.Begin()` after the defer opens a second, unused transaction and
touches no rows. -/

inductive InsertOutcome where
  | ok
  | prepareFail
  | execFail
  deriving Repr, DecidableEq, Inhabited

/-- The store: the visible committed rows of the three tables. -/
structure Store where
  spans : List SpanRow
  events : List EventRow
  links : List LinkRow
  deriving Repr, DecidableEq, Inhabited

/-- In-flight call state: the rows written to the open transaction, the index
of the next insert attempt, and the error of the first failed statement (after
which the remaining loop bodies are skipped, modelling the early `return`). -/
structure TxState where
  tx : Store
  nextInsert : Nat
  err : Option String
  deriving Repr, DecidableEq, Inhabited

def insertSpanRow (oracle : Nat → InsertOutcome) (st : TxState) (row : SpanRow) :
    TxState :=
  if st.err.isSome then st
  else
    match oracle st.nextInsert with
    | .prepareFail =>
        { st with nextInsert := st.nextInsert + 1,
                  err := some "failed to prepare span insert stmt" }
    | .execFail =>
        { st with nextInsert := st.nextInsert + 1,
                  err := some "error occured while inserting span" }
    | .ok =>
        { st with nextInsert := st.nextInsert + 1,
                  tx := { st.tx with spans := st.tx.spans ++ [row] } }

def insertEventRow (oracle : Nat → InsertOutcome) (st : TxState) (row : EventRow) :
    TxState :=
  if st.err.isSome then st
  else
    match oracle st.nextInsert with
    | .prepareFail =>
        { st with nextInsert := st.nextInsert + 1,
                  err := some "failed to prepare event insert query" }
    | .execFail =>
        { st with nextInsert := st.nextInsert + 1,
                  err := some "error occured while inserting event" }
    | .ok =>
        { st with nextInsert := st.nextInsert + 1,
                  tx := { st.tx with events := st.tx.events ++ [row] } }

def insertLinkRow (oracle : Nat → InsertOutcome) (st : TxState) (row : LinkRow) :
    TxState :=
  if st.err.isSome then st
  else
    match oracle st.nextInsert with
    | .prepareFail =>
        { st with nextInsert := st.nextInsert + 1,
                  err := some "failed to prepare link insert query" }
    | .execFail =>
        { st with nextInsert := st.nextInsert + 1,
                  err := some "error occured while inserting link" }
    | .ok =>
        { st with nextInsert := st.nextInsert + 1,
                  tx := { st.tx with links := st.tx.links ++ [row] } }

/-- The body of the innermost span loop: insert the span row, then one row
per event, then one row per link, in order. -/
def consumeSpan (oracle : Nat → InsertOutcome) (svc rattrs : String)
    (resourceDropped : Nat) (scope : PScope) (sattrs : String) (st : TxState)
    (sp : PSpan) : TxState :=
  let st := insertSpanRow oracle st (spanRowOf svc rattrs resourceDropped scope sattrs sp)
  let st := sp.events.foldl
    (fun st ev => insertEventRow oracle st (eventRowOf sp.spanId ev)) st
  sp.links.foldl (fun st l => insertLinkRow oracle st (linkRowOf sp.spanId l)) st

/-- The scope loop body: serialize the scope attributes once, then walk the
spans. -/
def consumeScopeSpans (oracle : Nat → InsertOutcome) (svc rattrs : String)
    (resourceDropped : Nat) (st : TxState) (ss : PScopeSpans) : TxState :=
  let sattrs := pcommonMapAsJSON ss.scope.attributes
  ss.spans.foldl (consumeSpan oracle svc rattrs resourceDropped ss.scope sattrs) st

/-- The resource loop body: resolve the service name, serialize the resource
attributes once, then walk the scopes. -/
def consumeResourceSpans (oracle : Nat → InsertOutcome) (st : TxState)
    (rs : PResourceSpans) : TxState :=
  let svc := resolveServiceName rs.resource.attributes
  let rattrs := pcommonMapAsJSON rs.resource.attributes
  rs.scopeSpans.foldl
    (consumeScopeSpans oracle svc rattrs rs.resource.droppedAttributesCount) st

/-- `ConsumeTraces` (config.go).  Returns the Go error (if any) together with
the store contents visible after the call.  Because of the
`defer tx.Commit()`, the transaction's rows become visible on every return
path — the error and success paths alike — so the visible store is the
transaction contents regardless of `err`. -/
def consumeTraces (oracle : Nat → InsertOutcome) (traces : List PResourceSpans) :
    Option String × Store :=
  let st := traces.foldl (consumeResourceSpans oracle) ⟨⟨[], [], []⟩, 0, none⟩
  (st.err, st.tx)

/-! ## Concrete instances used by the closed theorems and witnesses -/

/-- A minimal well-formed raw span: resource `a=x`, scope `lib`. -/
def sampleRawSpan : RawSpan :=
  { name := "s1", traceId := List.replicate 16 1, spanId := List.replicate 8 1,
    parentSpanId := List.replicate 8 0, traceState := "", kind := 2,
    startNano := 1000000000, endNano := 1005000000, statusCode := 0,
    statusDescription := "", droppedAttributes := 0, droppedEvents := 0,
    droppedLinks := 0, attributes := [], events := [], links := [],
    resource := ⟨[("a", .str "x")]⟩, scope := ⟨"lib", "v1", ""⟩ }

/-- Same scope identity as `sampleRawSpan`, different resource attribute
set. -/
def otherResourceRawSpan : RawSpan :=
  { sampleRawSpan with
    name := "s2",
    spanId := List.replicate 8 2,
    resource := ⟨[("a", .str "y")]⟩ }

/-- A raw span carrying a `codes.Code` value outside {Unset, Error, Ok}. -/
def invalidStatusRawSpan : RawSpan :=
  { sampleRawSpan with statusCode := 3 }

/-- A minimal normalized span (server kind, all-zero parent id). -/
def samplePSpan : PSpan :=
  { traceId := List.replicate 16 1, spanId := List.replicate 8 1,
    parentSpanId := List.replicate 8 0, traceState := "", name := "a", kind := 2,
    startNano := 1000000000, endNano := 1005000000, statusCode := .ok,
    statusMessage := "", droppedAttributesCount := 0, droppedEventsCount := 0,
    droppedLinksCount := 0, attributes := [], events := [], links := [] }

/-- A two-span single-resource single-scope batch handed to the persister. -/
def pairBatch : List PResourceSpans :=
  [⟨⟨[("service.name", .scalar (.str "svc"))], 0⟩,
    [⟨⟨"lib", "v1", []⟩,
      [samplePSpan, { samplePSpan with name := "b", spanId := List.replicate 8 2 }]⟩]⟩]

/-- Failure oracle: the second insert attempt (the second span's row) fails at
`ExecContext`; every other statement succeeds. -/
def failSecondInsert : Nat → InsertOutcome :=
  fun n => if n = 1 then .execFail else .ok

/-- An attribute map whose insertion order differs from sorted key order. -/
def unsortedPMap : PMap :=
  [("b", .scalar (.int 1)), ("a", .scalar (.str "x"))]

/-- The span attribute map of the spec's attribute-fidelity example. -/
def httpPMap : PMap :=
  [("http.method", .scalar (.str "GET")), ("http.status_code", .scalar (.int 200))]

/-- Resource attribute sets indexed by the length of a string value: an
infinite family of pairwise distinct resource attribute sets. -/
def resourceFamily (n : Nat) : RawResource :=
  ⟨[("k", .str (String.mk (List.replicate n 'a')))]⟩

/-- A raw span over a given resource, with fixed well-formed remaining
fields. -/
def rawSpanOver (r : RawResource) : RawSpan :=
  { sampleRawSpan with resource := r }

/-- A second raw span sharing `sampleRawSpan`'s resource attribute set and
scope identity. -/
def sameResourceRawSpan : RawSpan :=
  { sampleRawSpan with
    name := "s1b",
    spanId := List.replicate 8 3 }

/-- Key-sortedness: no later entry has a key byte-lexicographically smaller
than an earlier entry's key. -/
def KeySorted (m : PMap) : Prop :=
  m.Pairwise (fun a b => strLt b.1 a.1 = false)

/-- The normalizer state after every processed span shared one resource
attribute set and one scope identity: a single resource node holding a single
scope node holding the spans, with singleton lookup tables pointing at
them. -/
def singletonNState (res : RawResource) (sc : RawScope) (sps : List PSpan) :
    NState :=
  ⟨[⟨⟨transformAttributes res.attrs, 0⟩, [⟨⟨"", "", []⟩, sps⟩]⟩],
   [(hashResource res, 0)], [(hashScope sc, 0, 0)]⟩

/-- Claim C10 invariant on normalized batches: every resource node carries a
zero dropped-attributes counter. -/
def ResourcesDroppedZero (l : List PResourceSpans) : Prop :=
  ∀ rs ∈ l, rs.resource.droppedAttributesCount = 0

/-- Claim C10 invariant on persister state: every span row written so far
carries a zero resource-dropped-attributes column. -/
def RowsResourceDroppedZero (st : TxState) : Prop :=
  ∀ row ∈ st.tx.spans, row.resourceDroppedAttributesCount = 0

/-- The normalized batch `Spans` produces from `[sampleRawSpan]`. -/
def sampleBatch : List PResourceSpans :=
  [⟨⟨transformAttributes sampleRawSpan.resource.attrs, 0⟩,
    [⟨⟨"", "", []⟩, [toPSpan sampleRawSpan (convStatus sampleRawSpan.statusCode)]⟩]⟩]

/-! ## Supporting lemmas -/

theorem bytesLt_asymm : ∀ {a b : List Nat}, bytesLt a b = true → bytesLt b a = false
  | [], [] => by simp [bytesLt]
  | [], _ :: _ => by simp [bytesLt]
  | _ :: _, [] => by simp [bytesLt]
  | a :: as, b :: bs => by
    simp only [bytesLt]
    intro h
    by_cases h1 : a < b
    · rw [if_neg (by omega), if_pos h1]
    · rw [if_neg h1] at h
      by_cases h2 : b < a
      · rw [if_pos h2] at h
        exact absurd h (by simp)
      · rw [if_neg h2] at h
        rw [if_neg h2, if_neg h1]
        exact bytesLt_asymm h

theorem bytesLt_trans :
    ∀ {a b c : List Nat}, bytesLt a b = true → bytesLt b c = true →
      bytesLt a c = true
  | [], _ :: _, _ :: _, _, _ => by simp [bytesLt]
  | [], _ :: _, [], _, h2 => by simp [bytesLt] at h2
  | [], [], _, h1, _ => by simp [bytesLt] at h1
  | _ :: _, [], _, h1, _ => by simp [bytesLt] at h1
  | _ :: _, _ :: _, [], _, h2 => by simp [bytesLt] at h2
  | a :: as, b :: bs, c :: cs, h1, h2 => by
    simp only [bytesLt] at h1 h2 ⊢
    by_cases hab : a < b
    · by_cases hbc : b < c
      · rw [if_pos (by omega)]
      · rw [if_neg hbc] at h2
        by_cases hcb : c < b
        · rw [if_pos hcb] at h2
          exact absurd h2 (by simp)
        · rw [if_neg hcb] at h2
          rw [if_pos (by omega)]
    · rw [if_neg hab] at h1
      by_cases hba : b < a
      · rw [if_pos hba] at h1
        exact absurd h1 (by simp)
      · rw [if_neg hba] at h1
        by_cases hbc : b < c
        · rw [if_pos (by omega)]
        · rw [if_neg hbc] at h2
          by_cases hcb : c < b
          · rw [if_pos hcb] at h2
            exact absurd h2 (by simp)
          · rw [if_neg hcb] at h2
            rw [if_neg (by omega), if_neg (by omega)]
            exact bytesLt_trans h1 h2

theorem strLt_asymm {a b : String} (h : strLt a b = true) : strLt b a = false :=
  bytesLt_asymm h

theorem strLt_trans {a b c : String} (h1 : strLt a b = true)
    (h2 : strLt b c = true) : strLt a c = true :=
  bytesLt_trans h1 h2

theorem mem_insertSorted {kv x : String × PVal} {l : PMap}
    (hx : x ∈ insertSorted kv l) : x = kv ∨ x ∈ l := by
  induction l with
  | nil => simpa [insertSorted] using hx
  | cons y ys ih =>
    rw [insertSorted] at hx
    by_cases h : strLt kv.1 y.1
    · rw [if_pos h] at hx
      rcases List.mem_cons.mp hx with rfl | hx
      · exact Or.inl rfl
      · exact Or.inr hx
    · rw [if_neg h] at hx
      rcases List.mem_cons.mp hx with rfl | hx
      · exact Or.inr (List.mem_cons_self _ _)
      · rcases ih hx with h' | h'
        · exact Or.inl h'
        · exact Or.inr (List.mem_cons_of_mem _ h')

theorem pairwise_insertSorted {kv : String × PVal} {l : PMap}
    (h : KeySorted l) : KeySorted (insertSorted kv l) := by
  induction l with
  | nil => simp [insertSorted, KeySorted]
  | cons y ys ih =>
    rcases List.pairwise_cons.mp h with ⟨hy, hys⟩
    rw [insertSorted]
    by_cases hlt : strLt kv.1 y.1
    · rw [if_pos hlt]
      refine List.pairwise_cons.mpr ⟨?_, h⟩
      intro z hz
      rcases List.mem_cons.mp hz with rfl | hz
      · exact strLt_asymm hlt
      · rcases Bool.eq_false_or_eq_true (strLt z.1 kv.1) with hzt | hzf
        · exact absurd (strLt_trans hzt hlt) (by simp [hy z hz])
        · exact hzf
    · rw [if_neg hlt]
      refine List.pairwise_cons.mpr ⟨?_, ih hys⟩
      intro z hz
      rcases mem_insertSorted hz with rfl | hz
      · exact Bool.not_eq_true _ ▸ hlt
      · exact hy z hz

theorem pairwise_sortByKey (m : PMap) : KeySorted (sortByKey m) := by
  induction m with
  | nil => simp [sortByKey, KeySorted]
  | cons kv rest ih => exact pairwise_insertSorted ih

theorem mapStatus_ok {c : Nat} (h : ValidStatus c) :
    mapStatus c = .ok (convStatus c) := by
  rcases h with rfl | rfl | rfl <;> rfl

theorem processSpan_valid {st : NState} {s : RawSpan}
    (h : ValidStatus s.statusCode) :
    processSpan st s = .ok (processSpanOk st s (convStatus s.statusCode)) := by
  rw [processSpan, mapStatus_ok h]

/-- Processing the first span from the empty state creates one resource node
(attributes transformed, dropped counter 0) holding one zero-valued scope node
holding the span, and registers both fingerprints at index 0. -/
theorem processSpanOk_empty (s : RawSpan) (code : PStatusCode) :
    processSpanOk ⟨[], [], []⟩ s code
      = singletonNState s.resource s.scope [toPSpan s code] := rfl

/-- Processing a further span with the same resource attribute set and scope
identity hits both lookup tables and only appends the span under the existing
scope node. -/
theorem processSpanOk_singleton {res : RawResource} {sc : RawScope}
    (sps : List PSpan) {s : RawSpan} (code : PStatusCode)
    (hres : s.resource = res) (hsc : s.scope = sc) :
    processSpanOk (singletonNState res sc sps) s code
      = singletonNState res sc (sps ++ [toPSpan s code]) := by
  subst hres; subst hsc
  simp [processSpanOk, singletonNState, lookupIdx, lookupLoc, List.find?,
    modifyAt]

theorem foldlM_processSpan_singleton {res : RawResource} {sc : RawScope} :
    ∀ (rest : List RawSpan) (sps : List PSpan),
      (∀ s ∈ rest, s.resource = res ∧ s.scope = sc ∧ ValidStatus s.statusCode) →
      rest.foldlM processSpan (singletonNState res sc sps)
        = .ok (singletonNState res sc
            (sps ++ rest.map fun s => toPSpan s (convStatus s.statusCode)))
  | [], sps, _ => by simp only [List.map_nil, List.append_nil]; rfl
  | s :: rest, sps, h => by
    have hs := h s (List.mem_cons_self _ _)
    have ih := foldlM_processSpan_singleton rest (sps ++ [toPSpan s (convStatus s.statusCode)])
      (fun x hx => h x (List.mem_cons_of_mem _ hx))
    simp only [List.foldlM, processSpan_valid hs.2.2,
      processSpanOk_singleton sps (convStatus s.statusCode) hs.1 hs.2.1]
    simp only [List.map_cons]
    rw [show (sps ++ [toPSpan s (convStatus s.statusCode)])
          ++ List.map (fun s => toPSpan s (convStatus s.statusCode)) rest
        = sps ++ toPSpan s (convStatus s.statusCode)
          :: List.map (fun s => toPSpan s (convStatus s.statusCode)) rest by
      simp] at ih
    simpa using ih

theorem modifyAt_length {α : Type} (f : α → α) :
    ∀ (l : List α) (i : Nat), (modifyAt l i f).length = l.length
  | [], _ => rfl
  | _ :: _, 0 => rfl
  | x :: xs, n + 1 => by simp [modifyAt, modifyAt_length f xs n]

/-- The number of resource nodes grows by one exactly when the resource
fingerprint is absent from the lookup table. -/
theorem processSpanOk_traces_length (st : NState) (s : RawSpan)
    (code : PStatusCode) :
    (processSpanOk st s code).traces.length
      = (match lookupIdx st.resMap (hashResource s.resource) with
         | some _ => st.traces.length
         | none => st.traces.length + 1) := by
  rw [processSpanOk]
  cases hr : lookupIdx st.resMap (hashResource s.resource) with
  | some i =>
    cases hsc : lookupLoc st.scopeMap (hashScope s.scope) <;>
      simp [hr, hsc, modifyAt_length]
  | none =>
    cases hsc : lookupLoc st.scopeMap (hashScope s.scope) <;>
      simp [hr, hsc, modifyAt_length]

/-- `Spans` on a two-span batch with non-panicking statuses: the composition
of the two loop iterations. -/
theorem spans_pair_eq (s1 s2 : RawSpan) (h1 : ValidStatus s1.statusCode)
    (h2 : ValidStatus s2.statusCode) :
    Spans [s1, s2]
      = .ok (processSpanOk (processSpanOk ⟨[], [], []⟩ s1 (convStatus s1.statusCode))
          s2 (convStatus s2.statusCode)).traces := by
  rw [Spans]
  simp only [List.foldlM, processSpan_valid h1, processSpan_valid h2]
  rfl

theorem fnvStep_lt (h b : Nat) : fnvStep h b < 2 ^ 64 :=
  Nat.mod_lt _ (by norm_num)

theorem foldl_fnvStep_lt :
    ∀ (bs : List Nat) (h : Nat), h < 2 ^ 64 →
      List.foldl fnvStep h bs < 2 ^ 64
  | [], _, hh => hh
  | b :: bs, h, _ => foldl_fnvStep_lt bs (fnvStep h b) (fnvStep_lt h b)

theorem hashResource_lt (r : RawResource) : hashResource r < 2 ^ 64 :=
  foldl_fnvStep_lt _ _ (by norm_num [fnvOffsetBasis])

theorem resourceFamily_inj {i j : Nat}
    (h : resourceFamily i = resourceFamily j) : i = j := by
  have h2 : String.mk (List.replicate i 'a') = String.mk (List.replicate j 'a') := by
    simpa [resourceFamily] using h
  simpa using congrArg List.length (congrArg String.data h2)

theorem foldlM_processSpan_total :
    ∀ (sdl : List RawSpan) (st : NState),
      (∀ s ∈ sdl, ValidStatus s.statusCode) →
      ∃ st', sdl.foldlM processSpan st = .ok st'
  | [], st, _ => ⟨st, rfl⟩
  | s :: rest, st, h => by
    have hs := h s (List.mem_cons_self _ _)
    obtain ⟨st', hst'⟩ :=
      foldlM_processSpan_total rest (processSpanOk st s (convStatus s.statusCode))
        (fun x hx => h x (List.mem_cons_of_mem _ hx))
    exact ⟨st', by simp only [List.foldlM, processSpan_valid hs]; exact hst'⟩

theorem forall_mem_modifyAt {α : Type} {p : α → Prop} {f : α → α} :
    ∀ (l : List α) (i : Nat), (∀ a ∈ l, p a) → (∀ a ∈ l, p (f a)) →
      ∀ a ∈ modifyAt l i f, p a
  | [], _, _, _ => by simp [modifyAt]
  | x :: xs, 0, h, hf => by
    intro a ha
    rcases List.mem_cons.mp ha with rfl | ha
    · exact hf x (List.mem_cons_self _ _)
    · exact h a (List.mem_cons_of_mem _ ha)
  | x :: xs, i + 1, h, hf => by
    intro a ha
    rcases List.mem_cons.mp ha with rfl | ha
    · exact h a (List.mem_cons_self _ _)
    · exact forall_mem_modifyAt xs i
        (fun b hb => h b (List.mem_cons_of_mem _ hb))
        (fun b hb => hf b (List.mem_cons_of_mem _ hb)) a ha

/-- `Spans` on a non-empty batch whose head has a non-panicking status:
peel off the first loop iteration. -/
theorem spans_cons_valid (s : RawSpan) (rest : List RawSpan)
    (h : ValidStatus s.statusCode) :
    Spans (s :: rest)
      = (rest.foldlM processSpan
          (processSpanOk ⟨[], [], []⟩ s (convStatus s.statusCode))).map
            NState.traces := by
  rw [Spans]
  congr 1
  simp only [List.foldlM, processSpan_valid h]
  rfl

theorem processSpanOk_resources_dropped (st : NState) (s : RawSpan)
    (code : PStatusCode) (h : ResourcesDroppedZero st.traces) :
    ResourcesDroppedZero (processSpanOk st s code).traces := by
  rw [processSpanOk]
  cases hr : lookupIdx st.resMap (hashResource s.resource) with
  | some i =>
    cases hsc : lookupLoc st.scopeMap (hashScope s.scope) with
    | some loc =>
      simp only [hr, hsc]
      have base : ∀ a ∈ modifyAt st.traces i
          (fun rs => { rs with resource := ⟨transformAttributes s.resource.attrs, 0⟩ }),
          a.resource.droppedAttributesCount = 0 :=
        forall_mem_modifyAt _ _ h (fun a _ => rfl)
      exact forall_mem_modifyAt _ _ base (fun a ha => base a ha)
    | none =>
      simp only [hr, hsc]
      have base : ∀ a ∈ modifyAt st.traces i
          (fun rs => { rs with resource := ⟨transformAttributes s.resource.attrs, 0⟩ }),
          a.resource.droppedAttributesCount = 0 :=
        forall_mem_modifyAt _ _ h (fun a _ => rfl)
      have base2 : ∀ a ∈ modifyAt (modifyAt st.traces i
          (fun rs => { rs with resource := ⟨transformAttributes s.resource.attrs, 0⟩ })) i
          (fun rs => { rs with scopeSpans := rs.scopeSpans ++ [emptyScopeSpans] }),
          a.resource.droppedAttributesCount = 0 :=
        forall_mem_modifyAt _ _ base (fun a ha => base a ha)
      exact forall_mem_modifyAt _ _ base2 (fun a ha => base2 a ha)
  | none =>
    have happ : ∀ a ∈ st.traces ++ [emptyResourceSpans],
        a.resource.droppedAttributesCount = 0 := by
      intro a ha
      rcases List.mem_append.mp ha with ha | ha
      · exact h a ha
      · rw [List.mem_singleton.mp ha]; rfl
    cases hsc : lookupLoc st.scopeMap (hashScope s.scope) with
    | some loc =>
      simp only [hr, hsc]
      have base : ∀ a ∈ modifyAt (st.traces ++ [emptyResourceSpans]) st.traces.length
          (fun rs => { rs with resource := ⟨transformAttributes s.resource.attrs, 0⟩ }),
          a.resource.droppedAttributesCount = 0 :=
        forall_mem_modifyAt _ _ happ (fun a _ => rfl)
      exact forall_mem_modifyAt _ _ base (fun a ha => base a ha)
    | none =>
      simp only [hr, hsc]
      have base : ∀ a ∈ modifyAt (st.traces ++ [emptyResourceSpans]) st.traces.length
          (fun rs => { rs with resource := ⟨transformAttributes s.resource.attrs, 0⟩ }),
          a.resource.droppedAttributesCount = 0 :=
        forall_mem_modifyAt _ _ happ (fun a _ => rfl)
      have base2 : ∀ a ∈ modifyAt (modifyAt (st.traces ++ [emptyResourceSpans]) st.traces.length
          (fun rs => { rs with resource := ⟨transformAttributes s.resource.attrs, 0⟩ }))
          st.traces.length
          (fun rs => { rs with scopeSpans := rs.scopeSpans ++ [emptyScopeSpans] }),
          a.resource.droppedAttributesCount = 0 :=
        forall_mem_modifyAt _ _ base (fun a ha => base a ha)
      exact forall_mem_modifyAt _ _ base2 (fun a ha => base2 a ha)

theorem foldlM_resources_dropped :
    ∀ (sdl : List RawSpan) (st st' : NState),
      ResourcesDroppedZero st.traces →
      sdl.foldlM processSpan st = .ok st' →
      ResourcesDroppedZero st'.traces
  | [], st, st', h, e => by
    have e' : Except.ok (ε := String) st = .ok st' := e
    cases e'
    exact h
  | s :: rest, st, st', h, e => by
    cases hm : mapStatus s.statusCode with
    | error msg =>
      rw [show (s :: rest).foldlM processSpan st
            = Except.bind (processSpan st s) (fun b => rest.foldlM processSpan b)
          from rfl, processSpan, hm] at e
      exact absurd e (by simp [Except.bind])
    | ok code =>
      rw [show (s :: rest).foldlM processSpan st
            = Except.bind (processSpan st s) (fun b => rest.foldlM processSpan b)
          from rfl, processSpan, hm] at e
      exact foldlM_resources_dropped rest (processSpanOk st s code) st'
        (processSpanOk_resources_dropped st s code h) e

theorem foldl_preserve {α β : Type} {Q : β → Prop} {step : β → α → β}
    (hstep : ∀ st a, Q st → Q (step st a)) :
    ∀ (l : List α) (st : β), Q st → Q (l.foldl step st)
  | [], _, h => h
  | a :: l, st, h => foldl_preserve hstep l (step st a) (hstep st a h)

theorem foldl_preserve_mem {α β : Type} {Q : β → Prop} {step : β → α → β} :
    ∀ (l : List α), (∀ a ∈ l, ∀ st, Q st → Q (step st a)) →
      ∀ st, Q st → Q (l.foldl step st)
  | [], _, _, h => h
  | a :: l, hl, st, h =>
      foldl_preserve_mem l (fun b hb => hl b (List.mem_cons_of_mem _ hb))
        (step st a) (hl a (List.mem_cons_self _ _) st h)

theorem insertEventRow_spans (oracle : Nat → InsertOutcome) (st : TxState)
    (row : EventRow) : (insertEventRow oracle st row).tx.spans = st.tx.spans := by
  rw [insertEventRow]
  by_cases h : st.err.isSome
  · rw [if_pos h]
  · rw [if_neg h]
    cases oracle st.nextInsert <;> rfl

theorem insertLinkRow_spans (oracle : Nat → InsertOutcome) (st : TxState)
    (row : LinkRow) : (insertLinkRow oracle st row).tx.spans = st.tx.spans := by
  rw [insertLinkRow]
  by_cases h : st.err.isSome
  · rw [if_pos h]
  · rw [if_neg h]
    cases oracle st.nextInsert <;> rfl

theorem insertSpanRow_dropped (oracle : Nat → InsertOutcome) (st : TxState)
    (row : SpanRow) (h : RowsResourceDroppedZero st)
    (hrow : row.resourceDroppedAttributesCount = 0) :
    RowsResourceDroppedZero (insertSpanRow oracle st row) := by
  rw [insertSpanRow]
  by_cases he : st.err.isSome
  · rw [if_pos he]; exact h
  · rw [if_neg he]
    cases oracle st.nextInsert with
    | prepareFail => exact h
    | execFail => exact h
    | ok =>
      intro r hr
      rcases List.mem_append.mp hr with hr | hr
      · exact h r hr
      · rw [List.mem_singleton.mp hr]; exact hrow

theorem consumeSpan_dropped (oracle : Nat → InsertOutcome) (svc rattrs : String)
    (scope : PScope) (sattrs : String) (st : TxState) (sp : PSpan)
    (h : RowsResourceDroppedZero st) :
    RowsResourceDroppedZero (consumeSpan oracle svc rattrs 0 scope sattrs st sp) := by
  simp only [consumeSpan]
  have h1 : RowsResourceDroppedZero
      (insertSpanRow oracle st (spanRowOf svc rattrs 0 scope sattrs sp)) :=
    insertSpanRow_dropped oracle st _ h rfl
  have h2 : RowsResourceDroppedZero
      (sp.events.foldl
        (fun st' ev => insertEventRow oracle st' (eventRowOf sp.spanId ev))
        (insertSpanRow oracle st (spanRowOf svc rattrs 0 scope sattrs sp))) :=
    foldl_preserve
      (fun st' ev h' row hrow =>
        h' row (by rwa [insertEventRow_spans] at hrow))
      sp.events _ h1
  exact foldl_preserve (Q := RowsResourceDroppedZero)
    (fun st' l h' row hrow =>
      h' row (by rwa [insertLinkRow_spans] at hrow))
    sp.links _ h2

theorem consumeScopeSpans_dropped (oracle : Nat → InsertOutcome)
    (svc rattrs : String) (st : TxState) (ss : PScopeSpans)
    (h : RowsResourceDroppedZero st) :
    RowsResourceDroppedZero (consumeScopeSpans oracle svc rattrs 0 st ss) := by
  simp only [consumeScopeSpans]
  exact foldl_preserve
    (fun st' sp h' => consumeSpan_dropped oracle svc rattrs _ _ st' sp h')
    ss.spans st h

theorem consumeResourceSpans_dropped (oracle : Nat → InsertOutcome)
    (rs : PResourceSpans) (hrs : rs.resource.droppedAttributesCount = 0)
    (st : TxState) (h : RowsResourceDroppedZero st) :
    RowsResourceDroppedZero (consumeResourceSpans oracle st rs) := by
  simp only [consumeResourceSpans, hrs]
  exact foldl_preserve
    (fun st' ss h' => consumeScopeSpans_dropped oracle _ _ st' ss h')
    rs.scopeSpans st h

theorem consumeTraces_dropped (t : List PResourceSpans)
    (ht : ResourcesDroppedZero t) (oracle : Nat → InsertOutcome) :
    ∀ row ∈ (consumeTraces oracle t).2.spans,
      row.resourceDroppedAttributesCount = 0 :=
  foldl_preserve_mem t
    (fun rs hrs st hst => consumeResourceSpans_dropped oracle rs (ht rs hrs) st hst)
    ⟨⟨[], [], []⟩, 0, none⟩
    (fun row hrow => absurd hrow (List.not_mem_nil row))

/-! ## Claim theorems -/

/-- **C1.** The claim requires all-or-nothing persistence: commit only when
every insert of the batch succeeds, rollback (zero visible rows) otherwise.
The source schedules `tx.Commit()` with `defer` immediately after `BeginTx`,
so the error return taken when the second span insert fails still commits the
transaction: `ConsumeTraces` on a two-span batch whose second insert fails
returns the insert error, yet one span row of the failed batch is visible in
the store afterward.  (Spec §9 records this as a known source defect.) -/
theorem consumeTraces_commits_failed_batch :
    (consumeTraces failSecondInsert pairBatch).1
        = some "error occured while inserting span"
    ∧ (consumeTraces failSecondInsert pairBatch).2.spans.length = 1
    ∧ (consumeTraces failSecondInsert pairBatch).2.spans ≠ [] := by
  refine ⟨rfl, rfl, ?_⟩
  decide

/-- **C2.** The claim says the scope lookup table is scoped to the current
resource, so two spans with the same scope identity but different resource
attribute sets each get a scope node under their own resource node.  The
source declares one `scopeMap` for the whole call: on the batch
`[sampleRawSpan, otherResourceRawSpan]` (same scope identity, different
resources) the second span is appended under the first resource's scope node,
and the second resource node is left with no scope nodes at all. -/
theorem spans_scope_lookup_crosses_resources :
    (Spans [sampleRawSpan, otherResourceRawSpan]).map
      (fun t =>
        (t.length,
         (t.getD 0 default).scopeSpans.length,
         ((t.getD 0 default).scopeSpans.getD 0 default).spans.map PSpan.name,
         (t.getD 1 default).scopeSpans.length))
      = .ok (2, 1, ["s1", "s2"], 0) := rfl

/-- **C5 (counterexample).** The claim says `Spans` is total and its
defensive status-code branch is unreachable for every input.  A raw span
whose upstream `codes.Code` value is 3 (outside Unset/Error/Ok) drives the
status switch into `panic("unreachable")`: the branch is reachable and the
call aborts. -/
theorem spans_aborts_on_unknown_status :
    Spans [invalidStatusRawSpan] = .error "unreachable" := rfl

/-- **C6.** Start and end columns are the span timestamps converted to
microseconds by truncating division of nanoseconds by 1000 (the two
inequalities pin the truncated quotient, excluding any rounding up), and the
duration column is the end-minus-start difference in truncated microseconds;
for end = start + 5ms the persisted duration is exactly 5000. -/
theorem span_row_timestamp_truncation (svc rattrs : String) (rd : Nat)
    (scope : PScope) (sattrs : String) (sp : PSpan) :
    (spanRowOf svc rattrs rd scope sattrs sp).startTime = sp.startNano / 1000
    ∧ 1000 * (spanRowOf svc rattrs rd scope sattrs sp).startTime ≤ sp.startNano
    ∧ sp.startNano < 1000 * (spanRowOf svc rattrs rd scope sattrs sp).startTime + 1000
    ∧ (spanRowOf svc rattrs rd scope sattrs sp).endTime = sp.endNano / 1000
    ∧ 1000 * (spanRowOf svc rattrs rd scope sattrs sp).endTime ≤ sp.endNano
    ∧ sp.endNano < 1000 * (spanRowOf svc rattrs rd scope sattrs sp).endTime + 1000
    ∧ (sp.startNano ≤ sp.endNano →
        (spanRowOf svc rattrs rd scope sattrs sp).duration
          = (((sp.endNano - sp.startNano) / 1000 : Nat) : Int))
    ∧ (sp.endNano = sp.startNano + 5000000 →
        (spanRowOf svc rattrs rd scope sattrs sp).duration = 5000) := by
  have hs := Nat.div_add_mod sp.startNano 1000
  have hs' := Nat.mod_lt sp.startNano (show 0 < 1000 by norm_num)
  have he := Nat.div_add_mod sp.endNano 1000
  have he' := Nat.mod_lt sp.endNano (show 0 < 1000 by norm_num)
  refine ⟨rfl, ?_, ?_, rfl, ?_, ?_, ?_, ?_⟩
  · show 1000 * (sp.startNano / 1000) ≤ sp.startNano
    omega
  · show sp.startNano < 1000 * (sp.startNano / 1000) + 1000
    omega
  · show 1000 * (sp.endNano / 1000) ≤ sp.endNano
    omega
  · show sp.endNano < 1000 * (sp.endNano / 1000) + 1000
    omega
  · intro hle
    show durationMicroseconds sp.startNano sp.endNano = _
    rw [durationMicroseconds, if_pos hle]
  · intro h5
    show durationMicroseconds sp.startNano sp.endNano = 5000
    rw [durationMicroseconds, if_pos (by omega)]
    have : sp.endNano - sp.startNano = 5000000 := by omega
    rw [this]
    norm_num

/-- **C6 (witness).** The truncation theorem applied to a concrete span with
end = start + 5ms: the persisted duration is exactly 5000. -/
theorem span_row_timestamp_truncation_instance :
    (spanRowOf "svc" "" 0 ⟨"", "", []⟩ "" samplePSpan).duration = 5000 :=
  (span_row_timestamp_truncation "svc" "" 0 ⟨"", "", []⟩ ""
    samplePSpan).2.2.2.2.2.2.2 (by decide)

/-- **C7 (counterexample).** The claim says serialized key order equals
insertion order for every map.  `pcommonMapAsJSON` marshals the Go map built
by `AsRaw`, whose keys come out sorted: the map inserted as b-then-a
serializes with `a` first, not in insertion order. -/
theorem json_map_keys_not_insertion_order :
    pcommonMapAsJSON unsortedPMap = "\x7b\"a\":\"x\",\"b\":1\x7d"
    ∧ pcommonMapAsJSON unsortedPMap ≠ "\x7b\"b\":1,\"a\":\"x\"\x7d" := by
  refine ⟨rfl, ?_⟩
  decide

/-- **C7 (amended).** An empty attribute map serializes to exactly the
two-character object literal (never null or an omitted column); the spec's
example map serializes to exactly its structured text (its insertion order
coincides with sorted order); and in general the serialized entries are in
sorted key order, not insertion order. -/
theorem json_map_sorted_serialization :
    pcommonMapAsJSON [] = "\x7b\x7d"
    ∧ pcommonMapAsJSON httpPMap
        = "\x7b\"http.method\":\"GET\",\"http.status_code\":200\x7d"
    ∧ ∀ m : PMap, KeySorted (sortByKey (dedupKeepLast m)) :=
  ⟨rfl, rfl, fun m => pairwise_sortByKey (dedupKeepLast m)⟩

/-- **C8.** The persisted span and trace id columns are exactly the span's
byte strings, and the parent span id column is the SQL null sentinel exactly
when the 8-byte parent id is all-zero, and the exact parent bytes
otherwise. -/
theorem span_row_ids_and_parent_sentinel (svc rattrs : String) (rd : Nat)
    (scope : PScope) (sattrs : String) (sp : PSpan) :
    (spanRowOf svc rattrs rd scope sattrs sp).spanId = sp.spanId
    ∧ (spanRowOf svc rattrs rd scope sattrs sp).traceId = sp.traceId
    ∧ (spanRowOf svc rattrs rd scope sattrs sp).parentSpanId
        = (if sp.parentSpanId = List.replicate 8 0 then none
           else some sp.parentSpanId) :=
  ⟨rfl, rfl, rfl⟩

/-- **C9 (counterexample).** The claim says the kind column holds the
canonical lowercase kind name, "server" for the server kind.  The column
holds `ptrace.SpanKind.String()`, which is capitalized: a server-kind span
persists "Server", not "server". -/
theorem span_row_kind_capitalized :
    (spanRowOf "svc" "" 0 ⟨"lib", "v1", []⟩ "" samplePSpan).kind = "Server"
    ∧ (spanRowOf "svc" "" 0 ⟨"lib", "v1", []⟩ "" samplePSpan).kind ≠ "server" := by
  refine ⟨rfl, ?_⟩
  decide

/-- **C9 (amended).** The status-code column is the integer OTLP enum value
of the span's status (unset 0, ok 1, error 2), and the kind column is the
capitalized canonical kind name returned by `SpanKind.String()`, "Server" for
the server kind. -/
theorem span_row_status_and_kind (svc rattrs : String) (rd : Nat)
    (scope : PScope) (sattrs : String) (sp : PSpan) :
    (spanRowOf svc rattrs rd scope sattrs sp).statusCode
        = statusCodeInt sp.statusCode
    ∧ (spanRowOf svc rattrs rd scope sattrs sp).kind = kindString sp.kind
    ∧ statusCodeInt .unset = 0 ∧ statusCodeInt .ok = 1 ∧ statusCodeInt .error = 2
    ∧ kindString 2 = "Server" :=
  ⟨rfl, rfl, rfl, rfl, rfl, rfl⟩

/-- **C3.** A non-empty batch of raw spans that all share one resource
attribute set and one scope identity (and whose statuses do not panic)
normalizes to exactly one resource node containing exactly one scope node
containing exactly the input spans, converted in arrival order. -/
theorem spans_groups_shared_resource_scope (res : RawResource) (sc : RawScope)
    (sdl : List RawSpan) (hne : sdl ≠ [])
    (h : ∀ s ∈ sdl, s.resource = res ∧ s.scope = sc ∧ ValidStatus s.statusCode) :
    Spans sdl = .ok [⟨⟨transformAttributes res.attrs, 0⟩,
      [⟨⟨"", "", []⟩, sdl.map fun s => toPSpan s (convStatus s.statusCode)⟩]⟩] := by
  cases sdl with
  | nil => exact absurd rfl hne
  | cons s rest =>
    have hs := h s (List.mem_cons_self _ _)
    rw [spans_cons_valid s rest hs.2.2, processSpanOk_empty, hs.1, hs.2.1,
      foldlM_processSpan_singleton rest [toPSpan s (convStatus s.statusCode)]
        (fun x hx => h x (List.mem_cons_of_mem _ hx))]
    simp [singletonNState, Except.map]

/-- **C3 (witness).** The grouping theorem at a concrete two-span batch
sharing resource `a=x` and scope `lib`. -/
theorem spans_groups_shared_resource_scope_instance :
    Spans [sampleRawSpan, sameResourceRawSpan]
      = .ok [⟨⟨transformAttributes (⟨[("a", AttrVal.str "x")]⟩ : RawResource).attrs, 0⟩,
        [⟨⟨"", "", []⟩,
          [sampleRawSpan, sameResourceRawSpan].map
            fun s => toPSpan s (convStatus s.statusCode)⟩]⟩] :=
  spans_groups_shared_resource_scope ⟨[("a", .str "x")]⟩ ⟨"lib", "v1", ""⟩
    [sampleRawSpan, sameResourceRawSpan] (by decide) (by decide)

/-- **C4 (amended).** Two raw spans whose resource *fingerprints* differ
(FNV-1a over the canonical encoding) always produce two distinct resource
nodes. -/
theorem spans_distinct_fingerprints_two_nodes (s1 s2 : RawSpan)
    (hh : hashResource s1.resource ≠ hashResource s2.resource)
    (h1 : ValidStatus s1.statusCode) (h2 : ValidStatus s2.statusCode) :
    (Spans [s1, s2]).map List.length = .ok 2 := by
  rw [spans_pair_eq s1 s2 h1 h2]
  simp only [Except.map]
  rw [processSpanOk_traces_length, processSpanOk_empty]
  have hb : (hashResource s1.resource == hashResource s2.resource) = false := by
    simpa using hh
  simp [singletonNState, lookupIdx, List.find?, hb]

/-- **C4 (witness).** The two sample spans' resource attribute sets have
distinct fingerprints, and the normalized batch has two resource nodes. -/
theorem spans_distinct_fingerprints_two_nodes_instance :
    (Spans [sampleRawSpan, otherResourceRawSpan]).map List.length = .ok 2 :=
  spans_distinct_fingerprints_two_nodes sampleRawSpan otherResourceRawSpan
    (by decide) (Or.inl rfl) (Or.inl rfl)

/-- **C4 (counterexample).** The claim as stated — *any* two differing
resource attribute sets yield two distinct resource nodes — is false: the
64-bit fingerprint is not injective.  There are infinitely many pairwise
distinct resource attribute sets but only `2 ^ 64` fingerprints, so by the
pigeonhole principle two distinct attribute sets share a fingerprint, and on
such a pair `Spans` reuses the one resource node (the documented collision
limitation). -/
theorem spans_merges_colliding_resources :
    ¬ ∀ r1 r2 : RawResource, r1 ≠ r2 →
        (Spans [rawSpanOver r1, rawSpanOver r2]).map List.length = .ok 2 := by
  intro hclaim
  obtain ⟨i, j, hij, heq⟩ :=
    Finite.exists_ne_map_eq_of_infinite
      (fun n : Nat =>
        (⟨hashResource (resourceFamily n), hashResource_lt _⟩ : Fin (2 ^ 64)))
  have hhash : hashResource (resourceFamily i) = hashResource (resourceFamily j) :=
    congrArg Fin.val heq
  have hne : resourceFamily i ≠ resourceFamily j :=
    fun hrr => hij (resourceFamily_inj hrr)
  have h2 := hclaim _ _ hne
  rw [spans_pair_eq _ _ (Or.inl rfl) (Or.inl rfl)] at h2
  simp only [Except.map] at h2
  rw [processSpanOk_traces_length, processSpanOk_empty] at h2
  have hb : (hashResource (rawSpanOver (resourceFamily i)).resource
      == hashResource (rawSpanOver (resourceFamily j)).resource) = true := by
    show (hashResource (resourceFamily i) == hashResource (resourceFamily j)) = true
    simp [hhash]
  simp [singletonNState, lookupIdx, List.find?, hb] at h2

/-- **C5 (amended).** `Spans` is pure and returns a batch for every input
whose status codes all lie in the `codes.Code` enum {Unset, Error, Ok}; for
any other upstream status value it aborts (the panic shown in the
counterexample), so totality holds exactly on the non-panicking domain. -/
theorem spans_total_on_valid_status (sdl : List RawSpan)
    (h : ∀ s ∈ sdl, ValidStatus s.statusCode) :
    ∃ t, Spans sdl = .ok t := by
  obtain ⟨st', hst'⟩ := foldlM_processSpan_total sdl ⟨[], [], []⟩ h
  exact ⟨st'.traces, by rw [Spans, hst']; rfl⟩

/-- **C5 (witness).** Totality applied to a concrete two-span batch with
in-range status codes. -/
theorem spans_total_on_valid_status_instance :
    ∃ t, Spans [sampleRawSpan, otherResourceRawSpan] = .ok t :=
  spans_total_on_valid_status [sampleRawSpan, otherResourceRawSpan] (by decide)

/-- **C10.** Every resource node emitted by the normalizer carries a
dropped-attributes counter of zero (the normalizer writes the constant 0,
whatever the source resource reported), and consequently every span row the
persister derives from a normalized batch carries 0 in the
`resource_dropped_attributes_count` column, whatever the insert oracle
does. -/
theorem normalized_resource_dropped_zero (sdl : List RawSpan)
    (t : List PResourceSpans) (h : Spans sdl = .ok t) :
    ResourcesDroppedZero t
    ∧ ∀ (oracle : Nat → InsertOutcome),
        ∀ row ∈ (consumeTraces oracle t).2.spans,
          row.resourceDroppedAttributesCount = 0 := by
  have ht : ResourcesDroppedZero t := by
    rw [Spans] at h
    cases he : sdl.foldlM processSpan ⟨[], [], []⟩ with
    | error e =>
      rw [he] at h
      exact absurd h (by simp [Except.map])
    | ok st' =>
      rw [he] at h
      simp only [Except.map] at h
      cases h
      exact foldlM_resources_dropped sdl ⟨[], [], []⟩ st'
        (fun rs hrs => absurd hrs (List.not_mem_nil rs)) he
  exact ⟨ht, fun oracle => consumeTraces_dropped t ht oracle⟩

/-- **C10 (witness).** The single span row persisted from the normalization
of `[sampleRawSpan]` carries a zero resource-dropped-attributes column. -/
theorem normalized_resource_dropped_zero_instance :
    ((consumeTraces (fun _ => .ok) sampleBatch).2.spans.getD 0
        default).resourceDroppedAttributesCount = 0 :=
  (normalized_resource_dropped_zero [sampleRawSpan] sampleBatch rfl).2
    (fun _ => .ok) _ (by decide)

end SqliteExporter
